import Mathlib

/-!
# Syncboard server — shallow embedding

A shallow embedding of the socket-handling core of `src/server.js`:
the in-memory maps (`clipboardHistory`, `userSockets`, the per-socket
`userId` field), the `broadcastToUserDevices` helper, and the handlers for
`authenticate`, `clipboard_update`, `clear_history`, `delete_item` and
`disconnect`.  Maps are embedded as functions `String → Option _`; a JS
`Set` of socket ids is embedded as a duplicate-free list in insertion
order; `Date.now()` is embedded as an explicit `now : Nat` argument of
each `clipboard_update` event and `Date.now().toString()` as `Nat.repr`.
Token verification is external in the source (`jwt.verify`), so it is a
parameter `verify : String → Option String` of the step function.
-/

namespace Syncboard

/-- Constant `MAX_HISTORY` from `server.js` line 29. -/
def MAX_HISTORY : Nat := 10

/-- One clipboard history entry, as built at `server.js` lines 128–135. -/
structure ClipboardItem where
  id : String
  content : String
  type : String
  timestamp : Nat
  deviceId : String
  deviceName : String
deriving DecidableEq, Repr

/-- Payload of an outbound socket event. -/
inductive Payload where
  | items : List ClipboardItem → Payload
  | item : ClipboardItem → Payload
  | msg : String → Payload
deriving DecidableEq, Repr

/-- One `io.to(socketId).emit(event, data)` call. -/
structure Emission where
  target : String
  event : String
  data : Payload
deriving DecidableEq, Repr

/-- The mutable server state: `clipboardHistory` (userId → items),
`userSockets` (userId → set of socket ids, as an insertion-ordered
duplicate-free list), and the `socket.userId` field of each socket. -/
structure ServerState where
  clipboardHistory : String → Option (List ClipboardItem)
  userSockets : String → Option (List String)
  socketUserId : String → Option String

/-- Embeds `Map.set`. -/
def mapSet {α : Type} (m : String → Option α) (k : String) (v : α) :
    String → Option α :=
  fun x => if x = k then some v else m x

/-- Embeds `Map.delete`. -/
def mapDel {α : Type} (m : String → Option α) (k : String) :
    String → Option α :=
  fun x => if x = k then none else m x

/-- Embeds `Set.add` on a JS `Set`: no-op when present, else append. -/
def setAdd (l : List String) (x : String) : List String :=
  if x ∈ l then l else l ++ [x]

/-- Helper `broadcastToUserDevices` (`server.js` lines 32–41): emit `event` with
`data` to every socket of `userId` except `excludeSocketId`. -/
def broadcastToUserDevices (userSockets : String → Option (List String))
    (userId eventName : String) (data : Payload)
    (excludeSocketId : Option String) : List Emission :=
  match userSockets userId with
  | some sockets =>
      (sockets.filter (fun socketId => some socketId != excludeSocketId)).map
        (fun socketId => ⟨socketId, eventName, data⟩)
  | none => []

/-- The `clipboard_update` payload (`data.type` may be absent; the empty
string is the only falsy JS string, so `Option String` with `none`/`some ""`
both falsy covers the JS default to "text"). -/
structure UpdateData where
  content : String
  type : Option String
  deviceId : String
  deviceName : String
deriving DecidableEq, Repr

/-- Embeds the JS expression defaulting an optional string to "text". -/
def jsOrText : Option String → String
  | none => "text"
  | some s => if s = "" then "text" else s

/-- The `clipboardItem` object literal of `server.js` lines 128–135:
with `id` the decimal string of `now`, `type` defaulted to "text", timestamp `now`. -/
def mkClipboardItem (data : UpdateData) (now : Nat) : ClipboardItem :=
  { id := Nat.repr now
    content := data.content
    type := jsOrText data.type
    timestamp := now
    deviceId := data.deviceId
    deviceName := data.deviceName }

/-- The duplicate test `item.content === clipboardItem.content && item.type === clipboardItem.type`
(`server.js` lines 141–143). -/
def sameContent (a b : ClipboardItem) : Bool :=
  a.content == b.content && a.type == b.type

/-- History update of `server.js` lines 140–156: `findIndex` a duplicate,
`splice` it out, `unshift` the new item, `pop` when over `MAX_HISTORY`. -/
def pushHistory (history : List ClipboardItem) (clipboardItem : ClipboardItem) :
    List ClipboardItem :=
  let history1 :=
    match history.findIdx? (fun item => sameContent item clipboardItem) with
    | some existingIndex => history.eraseIdx existingIndex
    | none => history
  let history2 := clipboardItem :: history1
  if MAX_HISTORY < history2.length then history2.dropLast else history2

/-- The `clipboard_update` handler (`server.js` lines 122–167). -/
def handleClipboardUpdate (s : ServerState) (sid : String) (data : UpdateData)
    (now : Nat) : ServerState × List Emission :=
  match s.socketUserId sid with
  | none => (s, [⟨sid, "error", .msg "Not authenticated"⟩])
  | some userId =>
      let clipboardItem := mkClipboardItem data now
      let history := (s.clipboardHistory userId).getD []
      let newHistory := pushHistory history clipboardItem
      ({ s with clipboardHistory := mapSet s.clipboardHistory userId newHistory },
        broadcastToUserDevices s.userSockets userId "clipboard_sync"
          (.item clipboardItem) (some sid) ++
        broadcastToUserDevices s.userSockets userId "history"
          (.items newHistory) none)

/-- The `clear_history` handler (`server.js` lines 169–179). -/
def handleClearHistory (s : ServerState) (sid : String) :
    ServerState × List Emission :=
  match s.socketUserId sid with
  | none => (s, [⟨sid, "error", .msg "Not authenticated"⟩])
  | some userId =>
      ({ s with clipboardHistory := mapSet s.clipboardHistory userId [] },
        broadcastToUserDevices s.userSockets userId "history" (.items []) none)

/-- The `delete_item` handler (`server.js` lines 181–194). -/
def handleDeleteItem (s : ServerState) (sid itemId : String) :
    ServerState × List Emission :=
  match s.socketUserId sid with
  | none => (s, [⟨sid, "error", .msg "Not authenticated"⟩])
  | some userId =>
      let history := (s.clipboardHistory userId).getD []
      let newHistory := history.filter (fun item => item.id != itemId)
      ({ s with clipboardHistory := mapSet s.clipboardHistory userId newHistory },
        broadcastToUserDevices s.userSockets userId "history"
          (.items newHistory) none)

/-- Successful branch of the `authenticate` handler (`server.js` lines
103–115): set `socket.userId`, add the socket to the set of the user (creating
it when absent), and send the `history` snapshot to this socket alone. -/
def handleAuthSuccess (s : ServerState) (sid userId : String) :
    ServerState × List Emission :=
  let s1 : ServerState := { s with socketUserId := mapSet s.socketUserId sid userId }
  let sockets := (s1.userSockets userId).getD []
  let s2 : ServerState :=
    { s1 with userSockets := mapSet s1.userSockets userId (setAdd sockets sid) }
  (s2, [⟨sid, "history", .items ((s2.clipboardHistory userId).getD [])⟩])

/-- The `disconnect` handler (`server.js` lines 196–204): remove the socket
from the set of its user, deleting the user entry when the set becomes empty. -/
def handleDisconnect (s : ServerState) (sid : String) : ServerState :=
  match s.socketUserId sid with
  | some userId =>
      match s.userSockets userId with
      | some sockets =>
          let sockets1 := sockets.filter (fun x => x != sid)
          if sockets1.length = 0 then
            { s with userSockets := mapDel s.userSockets userId }
          else
            { s with userSockets := mapSet s.userSockets userId sockets1 }
      | none => s
  | none => s

/-- Destruction of the socket object once the transport connection is
gone: its `userId` field is no longer reachable. -/
def killSocket (s : ServerState) (sid : String) : ServerState :=
  { s with socketUserId := mapDel s.socketUserId sid }

/-- Inbound events of the hub.  `clipboardUpdate` carries the `Date.now()`
value `now` at which the handler runs. -/
inductive Event where
  | connect (sid : String)
  | authenticate (sid token : String)
  | clipboardUpdate (sid : String) (data : UpdateData) (now : Nat)
  | clearHistory (sid : String)
  | deleteItem (sid itemId : String)
  | disconnect (sid : String)
deriving DecidableEq, Repr

/-- One step of the hub: the new state, the emissions, and whether the
server closed the connection (`socket.disconnect()` on a bad token). -/
def stepE (verify : String → Option String) (s : ServerState) :
    Event → ServerState × List Emission × Bool
  | .connect _ => (s, [], false)
  | .authenticate sid token =>
      match verify token with
      | some userId =>
          let r := handleAuthSuccess s sid userId
          (r.1, r.2, false)
      | none =>
          (killSocket (handleDisconnect s sid) sid,
            [⟨sid, "auth_error", .msg "Invalid token"⟩], true)
  | .clipboardUpdate sid data now =>
      let r := handleClipboardUpdate s sid data now
      (r.1, r.2, false)
  | .clearHistory sid =>
      let r := handleClearHistory s sid
      (r.1, r.2, false)
  | .deleteItem sid itemId =>
      let r := handleDeleteItem s sid itemId
      (r.1, r.2, false)
  | .disconnect sid => (killSocket (handleDisconnect s sid) sid, [], false)

/-- The state after one event. -/
def step (verify : String → Option String) (s : ServerState) (e : Event) :
    ServerState :=
  (stepE verify s e).1

/-- The state after a sequence of events. -/
def run (verify : String → Option String) (s : ServerState)
    (es : List Event) : ServerState :=
  es.foldl (step verify) s

/-- The initial server state: every map empty. -/
def initState : ServerState :=
  ⟨fun _ => none, fun _ => none, fun _ => none⟩

/-- The current history of a user, empty when none is recorded. -/
def histOf (s : ServerState) (u : String) : List ClipboardItem :=
  (s.clipboardHistory u).getD []

/-- The `(content, type)`-distinctness relation of the dedup invariant. -/
def keyRel (a b : ClipboardItem) : Prop :=
  ¬(a.content = b.content ∧ a.type = b.type)

/-- No two entries share a `(content, type)` pair. -/
def keyDistinct (h : List ClipboardItem) : Prop := h.Pairwise keyRel

/-- Numeric value of a decimal digit character. -/
def charVal (c : Char) : Nat := c.toNat - 48

/-- Value of a decimal digit string, most significant first. -/
def digitsVal (l : List Char) : Nat := l.foldl (fun a c => 10 * a + charVal c) 0

/-- Well-formedness of one history relative to a time bound `T`: each
`id` of each entry is the decimal representation of its timestamp, every
timestamp is below `T`, and timestamps are pairwise distinct. -/
def idTsOk (T : Nat) (h : List ClipboardItem) : Prop :=
  (∀ it ∈ h, it.id = Nat.repr it.timestamp ∧ it.timestamp < T) ∧
  h.Pairwise (fun a b => a.timestamp ≠ b.timestamp)

/-- Property `idTsOk` for the history of every user. -/
def IdInv (s : ServerState) (T : Nat) : Prop := ∀ u, idTsOk T (histOf s u)

/-- The clock constraint one event imposes on a time bound. -/
def timeOk (t : Nat) : Event → Prop
  | .clipboardUpdate _ _ now => t ≤ now
  | _ => True

/-- Decidable form of `timeOk`. -/
def timeOkB (t : Nat) : Event → Bool
  | .clipboardUpdate _ _ now => decide (t ≤ now)
  | _ => true

/-- The time bound after one event. -/
def stepBound (t : Nat) : Event → Nat
  | .clipboardUpdate _ _ now => now + 1
  | _ => t

/-- The `clipboard_update` times along the trace are strictly increasing
and start at or after `t`. -/
def timesMono : Nat → List Event → Bool
  | _, [] => true
  | t, e :: es => timeOkB t e && timesMono (stepBound t e) es

/-- Registry well-formedness: every socket in the connection set of a user has
that user as its current `socket.userId`. -/
def RegInv (s : ServerState) : Prop :=
  ∀ u sid, sid ∈ (s.userSockets u).getD [] → s.socketUserId sid = some u

/-- One event does not re-authenticate an already-authenticated connection
as a different user. -/
def authOkB (verify : String → Option String) (s : ServerState) : Event → Bool
  | .authenticate sid token =>
      match verify token with
      | some userId =>
          s.socketUserId sid == none || s.socketUserId sid == some userId
      | none => true
  | _ => true

/-- No event of the trace re-authenticates a connection as a different
user than the one it is currently authenticated as. -/
def consistentAuth (verify : String → Option String) :
    ServerState → List Event → Bool
  | _, [] => true
  | s, e :: es => authOkB verify s e && consistentAuth verify (step verify s e) es

/-- A token map sending `tU` to user `U` and `tV` to user `V`. -/
def cexVerify : String → Option String :=
  fun t => if t = "tU" then some "U" else if t = "tV" then some "V" else none

/-- Connection `A` authenticates as `U`, then again as `V`. -/
def c5Trace : List Event :=
  [.connect "A", .authenticate "A" "tU", .authenticate "A" "tV"]

/-- A consistent trace: `A` connects and authenticates once. -/
def c5WitnessTrace : List Event := [.connect "A", .authenticate "A" "tU"]

/-- Two updates in the same `Date.now()` millisecond (5), with distinct
contents. -/
def c6Trace : List Event :=
  [.connect "A", .authenticate "A" "tU",
   .clipboardUpdate "A" ⟨"x", some "text", "d", "dn"⟩ 5,
   .clipboardUpdate "A" ⟨"y", some "text", "d", "dn"⟩ 5]

/-- A trace whose update times strictly increase. -/
def c6WitnessTrace : List Event :=
  [.connect "A", .authenticate "A" "tU",
   .clipboardUpdate "A" ⟨"x", some "text", "d", "dn"⟩ 3,
   .clipboardUpdate "A" ⟨"y", some "text", "d", "dn"⟩ 4]

/-- Connections `A` and `B` both authenticate as user `U`. -/
def fanTrace : List Event :=
  [.connect "A", .connect "B", .authenticate "A" "tU", .authenticate "B" "tU"]

/-- The state in which user `U` has live connections `A` and `B`. -/
def fanState : ServerState := run cexVerify initState fanTrace

theorem sameContent_true_iff (a b : ClipboardItem) :
    sameContent a b = true ↔ a.content = b.content ∧ a.type = b.type := by
  simp [sameContent]

/-- Applying `pushHistory h it` yields a sublist of `it :: h`. -/
theorem pushHistory_sublist (h : List ClipboardItem) (it : ClipboardItem) :
    List.Sublist (pushHistory h it) (it :: h) := by
  have haux : ∀ h1 : List ClipboardItem, List.Sublist h1 h →
      List.Sublist
        (if MAX_HISTORY < (it :: h1).length then (it :: h1).dropLast else (it :: h1))
        (it :: h) := by
    intro h1 hs
    have h2 : List.Sublist (it :: h1) (it :: h) := List.cons_sublist_cons.mpr hs
    split
    · exact List.Sublist.trans (List.dropLast_sublist _) h2
    · exact h2
  unfold pushHistory
  cases hf : h.findIdx? (fun item => sameContent item it) with
  | none => simpa using haux h (List.Sublist.refl h)
  | some i => simpa using haux (h.eraseIdx i) (List.eraseIdx_sublist h i)

/-- Function `pushHistory` keeps the history within `MAX_HISTORY`. -/
theorem pushHistory_length_le (h : List ClipboardItem) (it : ClipboardItem)
    (hl : h.length ≤ MAX_HISTORY) :
    (pushHistory h it).length ≤ MAX_HISTORY := by
  have haux : ∀ h1 : List ClipboardItem, h1.length ≤ MAX_HISTORY →
      (if MAX_HISTORY < (it :: h1).length then (it :: h1).dropLast
       else (it :: h1)).length ≤ MAX_HISTORY := by
    intro h1 hs
    split
    · simp only [List.length_dropLast, List.length_cons]
      omega
    · simp only [List.length_cons] at *
      omega
  unfold pushHistory
  cases hf : h.findIdx? (fun item => sameContent item it) with
  | none => simpa using haux h hl
  | some i =>
    simpa using haux (h.eraseIdx i)
      (le_trans (List.length_eraseIdx_le h i) hl)

theorem keyRel_antisymm_matches (it : ClipboardItem) :
    ∀ a b, sameContent a it = true → sameContent b it = true → ¬ keyRel a b := by
  intro a b ha hb
  rw [sameContent_true_iff] at ha hb
  intro hab
  exact hab ⟨ha.1.trans hb.1.symm, ha.2.trans hb.2.symm⟩

theorem eraseIdx_eq_filter_of_findIdx {α : Type} (p : α → Bool) (R : α → α → Prop)
    (hR : ∀ a b, p a = true → p b = true → ¬ R a b) :
    ∀ (h : List α) (i : Nat), h.Pairwise R → h.findIdx? p = some i →
      h.eraseIdx i = h.filter (fun x => !p x) := by
  intro h
  induction h with
  | nil => intro i _ hf; simp at hf
  | cons a t ih =>
    intro i hpw hf
    rw [List.findIdx?_cons] at hf
    by_cases hp : p a = true
    · rw [if_pos hp] at hf
      obtain rfl : (0 : Nat) = i := by simpa using hf
      have hall : ∀ x ∈ t, p x = false := by
        intro x hx
        by_contra hpx
        exact hR a x hp (by simpa using hpx) ((List.pairwise_cons.mp hpw).1 x hx)
      have : t.filter (fun x => !p x) = t := by
        rw [List.filter_eq_self]; intro b hb; simp [hall b hb]
      simp [List.eraseIdx, List.filter, hp, this]
    · rw [if_neg hp, List.findIdx?_succ] at hf
      simp only [Bool.not_eq_true] at hp
      obtain ⟨j, hj, rfl⟩ : ∃ j, t.findIdx? p = some j ∧ j + 1 = i := by
        cases hfj : t.findIdx? p with
        | none => rw [hfj] at hf; simp at hf
        | some j => rw [hfj] at hf; simp at hf; exact ⟨j, rfl, hf⟩
      rw [show (a :: t).eraseIdx (j + 1) = a :: t.eraseIdx j from rfl]
      rw [ih j (List.pairwise_cons.mp hpw).2 hj]
      simp [List.filter, hp]

theorem length_filter_not_of_unique {α : Type} (p : α → Bool) (R : α → α → Prop)
    (hR : ∀ a b, p a = true → p b = true → ¬ R a b) :
    ∀ (l : List α), l.Pairwise R → ∀ e ∈ l, p e = true →
      (l.filter (fun x => !p x)).length + 1 = l.length := by
  intro l
  induction l with
  | nil => intro _ e he; simp at he
  | cons a t ih =>
    intro hpw e he hpe
    by_cases hp : p a = true
    · have hall : ∀ x ∈ t, p x = false := by
        intro x hx
        by_contra hpx
        exact hR a x hp (by simpa using hpx) ((List.pairwise_cons.mp hpw).1 x hx)
      have : t.filter (fun x => !p x) = t := by
        rw [List.filter_eq_self]; intro b hb; simp [hall b hb]
      simp [List.filter, hp, this]
    · simp only [Bool.not_eq_true] at hp
      have het : e ∈ t := by
        rcases List.mem_cons.mp he with rfl | hmem
        · rw [hp] at hpe; simp at hpe
        · exact hmem
      have := ih (List.pairwise_cons.mp hpw).2 e het hpe
      simp [List.filter, hp]
      omega

/-- On a key-distinct history, the dedup scan of `pushHistory` is exactly
"drop every entry whose key matches the new item", and nothing is trimmed when the
history was within the bound: a closed form for `pushHistory`. -/
theorem pushHistory_eq_of_mem (h : List ClipboardItem) (it : ClipboardItem)
    (hl : h.length ≤ MAX_HISTORY) (hd : keyDistinct h)
    (e : ClipboardItem) (he : e ∈ h) (hkey : sameContent e it = true) :
    pushHistory h it = it :: h.filter (fun x => !sameContent x it) := by
  have hlen1 : (h.filter (fun x => !sameContent x it)).length + 1 = h.length :=
    length_filter_not_of_unique _ keyRel (keyRel_antisymm_matches it) h hd e he hkey
  obtain ⟨i, hi⟩ : ∃ i, h.findIdx? (fun item => sameContent item it) = some i := by
    cases hfj : h.findIdx? (fun item => sameContent item it) with
    | none =>
      have := List.findIdx?_eq_none_iff.mp hfj e he
      rw [hkey] at this; simp at this
    | some j => exact ⟨j, rfl⟩
  have herase : h.eraseIdx i = h.filter (fun x => !sameContent x it) :=
    eraseIdx_eq_filter_of_findIdx _ keyRel (keyRel_antisymm_matches it) h i hd hi
  unfold pushHistory
  rw [hi]
  simp only [herase]
  have : ¬ MAX_HISTORY < (it :: h.filter (fun x => !sameContent x it)).length := by
    simp only [List.length_cons]
    omega
  rw [if_neg this]

/-- Key-distinctness is preserved by `pushHistory`. -/
theorem pushHistory_keyDistinct (h : List ClipboardItem) (it : ClipboardItem)
    (hd : keyDistinct h) : keyDistinct (pushHistory h it) := by
  have hfilter : (h.filter (fun x => !sameContent x it)).Pairwise keyRel :=
    List.Pairwise.sublist (List.filter_sublist h) hd
  have hcons : keyDistinct (it :: h.filter (fun x => !sameContent x it)) := by
    rw [keyDistinct, List.pairwise_cons]
    refine ⟨?_, hfilter⟩
    intro x hx
    have hxf := (List.mem_filter.mp hx).2
    simp only [Bool.not_eq_true'] at hxf
    rw [keyRel]
    intro hc
    have hxt : sameContent x it = true := by
      rw [sameContent_true_iff]
      exact ⟨hc.1.symm, hc.2.symm⟩
    rw [hxt] at hxf
    simp at hxf
  have haux : ∀ h1 : List ClipboardItem, keyDistinct (it :: h1) →
      keyDistinct (if MAX_HISTORY < (it :: h1).length then (it :: h1).dropLast
        else (it :: h1)) := by
    intro h1 hk
    split
    · exact List.Pairwise.sublist (List.dropLast_sublist _) hk
    · exact hk
  unfold pushHistory
  cases hf : h.findIdx? (fun item => sameContent item it) with
  | none =>
    have hall : h.filter (fun x => !sameContent x it) = h := by
      rw [List.filter_eq_self]
      intro a ha
      have := List.findIdx?_eq_none_iff.mp hf a ha
      simp [this]
    have := haux h (hall ▸ hcons)
    simpa using this
  | some i =>
    have herase : h.eraseIdx i = h.filter (fun x => !sameContent x it) :=
      eraseIdx_eq_filter_of_findIdx _ keyRel (keyRel_antisymm_matches it) h i hd hf
    have := haux (h.eraseIdx i) (by rw [herase]; exact hcons)
    simpa using this

theorem handleDisconnect_clipboardHistory (s : ServerState) (sid : String) :
    (handleDisconnect s sid).clipboardHistory = s.clipboardHistory := by
  unfold handleDisconnect
  split
  · split
    · dsimp only
      split <;> rfl
    · rfl
  · rfl

theorem killSocket_clipboardHistory (s : ServerState) (sid : String) :
    (killSocket s sid).clipboardHistory = s.clipboardHistory := rfl

/-- How one step can change the history of one user: unchanged, cleared,
filtered by an id, or pushed with the freshly built item of a
`clipboard_update` event. -/
theorem histOf_step_cases (verify : String → Option String) (s : ServerState)
    (e : Event) (u : String) :
    histOf (step verify s e) u = histOf s u ∨
    histOf (step verify s e) u = [] ∨
    (∃ idv, histOf (step verify s e) u =
      (histOf s u).filter (fun x => x.id != idv)) ∨
    (∃ sid data now, e = Event.clipboardUpdate sid data now ∧
      histOf (step verify s e) u =
        pushHistory (histOf s u) (mkClipboardItem data now)) := by
  cases e with
  | connect sid => left; rfl
  | authenticate sid token =>
    left
    cases hv : verify token with
    | some userId =>
      simp only [step, stepE, hv, handleAuthSuccess, histOf]
    | none =>
      simp only [step, stepE, hv, histOf, killSocket_clipboardHistory,
        handleDisconnect_clipboardHistory]
  | clipboardUpdate sid data now =>
    cases hu : s.socketUserId sid with
    | none => left; simp only [step, stepE, handleClipboardUpdate, hu]
    | some userId =>
      by_cases huu : u = userId
      · subst huu
        right; right; right
        refine ⟨sid, data, now, rfl, ?_⟩
        simp only [step, stepE, handleClipboardUpdate, hu, histOf, mapSet,
          if_pos rfl, Option.getD_some, if_true]
      · left
        simp only [step, stepE, handleClipboardUpdate, hu, histOf, mapSet,
          if_neg huu]
  | clearHistory sid =>
    cases hu : s.socketUserId sid with
    | none => left; simp only [step, stepE, handleClearHistory, hu]
    | some userId =>
      by_cases huu : u = userId
      · subst huu
        right; left
        simp only [step, stepE, handleClearHistory, hu, histOf, mapSet,
          if_pos rfl, Option.getD_some, if_true]
      · left
        simp only [step, stepE, handleClearHistory, hu, histOf, mapSet,
          if_neg huu]
  | deleteItem sid itemId =>
    cases hu : s.socketUserId sid with
    | none => left; simp only [step, stepE, handleDeleteItem, hu]
    | some userId =>
      by_cases huu : u = userId
      · subst huu
        right; right; left
        refine ⟨itemId, ?_⟩
        simp only [step, stepE, handleDeleteItem, hu, histOf, mapSet,
          if_pos rfl, Option.getD_some, if_true]
      · left
        simp only [step, stepE, handleDeleteItem, hu, histOf, mapSet,
          if_neg huu]
  | disconnect sid =>
    left
    simp only [step, stepE, histOf, killSocket_clipboardHistory,
      handleDisconnect_clipboardHistory]

/-- Any state predicate preserved by every step holds after every run. -/
theorem run_preserves (verify : String → Option String)
    (P : ServerState → Prop)
    (hstep : ∀ s e, P s → P (step verify s e)) :
    ∀ (es : List Event) (s : ServerState), P s → P (run verify s es) := by
  intro es
  induction es with
  | nil => intro s hs; exact hs
  | cons e es ih => intro s hs; exact ih (step verify s e) (hstep s e hs)

theorem histOf_initState (u : String) : histOf initState u = [] := rfl

/-- C2: under every event sequence from the initial state, the
history of every user stays within `MAX_HISTORY` (10) after every handled event. -/
theorem history_length_bounded (verify : String → Option String)
    (es : List Event) (u : String) :
    (histOf (run verify initState es) u).length ≤ MAX_HISTORY := by
  have hstep : ∀ s e, (∀ v, (histOf s v).length ≤ MAX_HISTORY) →
      ∀ v, (histOf (step verify s e) v).length ≤ MAX_HISTORY := by
    intro s e hs v
    rcases histOf_step_cases verify s e v with h | h | ⟨idv, h⟩ | ⟨sid, data, now, _, h⟩
    · rw [h]; exact hs v
    · rw [h]; simp [MAX_HISTORY]
    · rw [h]; exact le_trans (List.length_filter_le _ _) (hs v)
    · rw [h]; exact pushHistory_length_le _ _ (hs v)
  exact run_preserves verify (fun s => ∀ v, (histOf s v).length ≤ MAX_HISTORY)
    hstep es initState (fun v => by simp [histOf_initState]) u

/-- C3: under every event sequence from the initial state, no two entries
of the history of any user share the same `(content, type)` pair. -/
theorem history_key_distinct (verify : String → Option String)
    (es : List Event) (u : String) :
    keyDistinct (histOf (run verify initState es) u) := by
  have hstep : ∀ s e, (∀ v, keyDistinct (histOf s v)) →
      ∀ v, keyDistinct (histOf (step verify s e) v) := by
    intro s e hs v
    rcases histOf_step_cases verify s e v with h | h | ⟨idv, h⟩ | ⟨sid, data, now, _, h⟩
    · rw [h]; exact hs v
    · rw [h]; exact List.Pairwise.nil
    · rw [h]; exact List.Pairwise.sublist (List.filter_sublist _) (hs v)
    · rw [h]; exact pushHistory_keyDistinct _ _ (hs v)
  exact run_preserves verify (fun s => ∀ v, keyDistinct (histOf s v))
    hstep es initState (fun v => by rw [histOf_initState]; exact List.Pairwise.nil) u

theorem foldl_val_acc (l : List Char) :
    ∀ a : Nat, l.foldl (fun a c => 10 * a + charVal c) a =
      a * 10 ^ l.length + digitsVal l := by
  induction l with
  | nil => intro a; simp [digitsVal]
  | cons c t ih =>
    intro a
    have h1 := ih (10 * a + charVal c)
    have h2 := ih (10 * 0 + charVal c)
    simp only [List.foldl_cons, digitsVal, List.length_cons, pow_succ] at *
    rw [h1, h2]
    ring

theorem digitsVal_cons (c : Char) (ds : List Char) :
    digitsVal (c :: ds) = charVal c * 10 ^ ds.length + digitsVal ds := by
  simp only [digitsVal, List.foldl_cons]
  rw [show (10 * 0 + charVal c) = charVal c by omega, foldl_val_acc]
  rfl

theorem charVal_digitChar : ∀ k, k < 10 → charVal (Nat.digitChar k) = k := by decide

theorem toDigitsCore_val :
    ∀ (fuel n : Nat) (ds : List Char), n < fuel →
      digitsVal (Nat.toDigitsCore 10 fuel n ds) = n * 10 ^ ds.length + digitsVal ds := by
  intro fuel
  induction fuel with
  | zero => intro n ds h; omega
  | succ fuel ih =>
    intro n ds h
    rw [Nat.toDigitsCore]
    by_cases h0 : n / 10 = 0
    · rw [if_pos h0, digitsVal_cons, charVal_digitChar (n % 10) (by omega)]
      have hn : n % 10 = n := by omega
      rw [hn]
    · rw [if_neg h0]
      rw [ih (n / 10) (Nat.digitChar (n % 10) :: ds) (by omega)]
      rw [digitsVal_cons, charVal_digitChar (n % 10) (by omega)]
      simp only [List.length_cons, pow_succ]
      have hmod : n / 10 * 10 + n % 10 = n := by omega
      calc n / 10 * (10 ^ ds.length * 10) + (n % 10 * 10 ^ ds.length + digitsVal ds)
      _ = (n / 10 * 10 + n % 10) * 10 ^ ds.length + digitsVal ds := by ring
      _ = n * 10 ^ ds.length + digitsVal ds := by rw [hmod]

theorem digitsVal_toDigits (n : Nat) : digitsVal (Nat.toDigits 10 n) = n := by
  have := toDigitsCore_val (n + 1) n [] (Nat.lt_succ_self n)
  simpa [Nat.toDigits, digitsVal] using this

/-- The embedding of `Date.now().toString()` is injective: distinct `Nat`s have
distinct decimal representations. -/
theorem natRepr_injective {m n : Nat} (h : Nat.repr m = Nat.repr n) : m = n := by
  have hd : (Nat.repr m).data = (Nat.repr n).data := by rw [h]
  have ht : Nat.toDigits 10 m = Nat.toDigits 10 n := by
    simpa [Nat.repr, List.asString] using hd
  have := congrArg digitsVal ht
  rwa [digitsVal_toDigits, digitsVal_toDigits] at this

theorem idTsOk_mono {T T2 : Nat} {h : List ClipboardItem}
    (hok : idTsOk T h) (hT : T ≤ T2) : idTsOk T2 h :=
  ⟨fun it hit => ⟨(hok.1 it hit).1, lt_of_lt_of_le (hok.1 it hit).2 hT⟩, hok.2⟩

theorem idTsOk_sublist {T : Nat} {h1 h2 : List ClipboardItem}
    (hs : List.Sublist h1 h2) (hok : idTsOk T h2) : idTsOk T h1 :=
  ⟨fun it hit => hok.1 it (hs.subset hit), List.Pairwise.sublist hs hok.2⟩

theorem timeOk_of_timeOkB {t : Nat} {e : Event} (h : timeOkB t e = true) :
    timeOk t e := by
  cases e
  case clipboardUpdate sid data now =>
    simpa [timeOkB, timeOk] using h
  all_goals trivial

theorem le_stepBound (t : Nat) (e : Event) (hok : timeOk t e) :
    t ≤ stepBound t e := by
  cases e
  case clipboardUpdate sid data now => exact Nat.le_succ_of_le hok
  all_goals exact Nat.le.refl

theorem idInv_step (verify : String → Option String) (s : ServerState)
    (e : Event) (t : Nat) (hinv : IdInv s t) (hok : timeOk t e) :
    IdInv (step verify s e) (stepBound t e) := by
  intro u
  have hb : t ≤ stepBound t e := le_stepBound t e hok
  rcases histOf_step_cases verify s e u with h | h | ⟨idv, h⟩ | ⟨sid, data, now, he, h⟩
  · rw [h]; exact idTsOk_mono (hinv u) hb
  · rw [h]; exact ⟨by simp, List.Pairwise.nil⟩
  · rw [h]
    exact idTsOk_sublist (List.filter_sublist _) (idTsOk_mono (hinv u) hb)
  · subst he
    rw [h]
    have hnow : t ≤ now := hok
    apply idTsOk_sublist (pushHistory_sublist _ _)
    constructor
    · intro x hx
      rcases List.mem_cons.mp hx with rfl | hx
      · refine ⟨rfl, ?_⟩
        show now < now + 1
        omega
      · obtain ⟨hid, hts⟩ := (hinv u).1 x hx
        refine ⟨hid, ?_⟩
        show x.timestamp < now + 1
        omega
    · rw [List.pairwise_cons]
      refine ⟨?_, (hinv u).2⟩
      intro x hx
      obtain ⟨hid, hts⟩ := (hinv u).1 x hx
      show now ≠ x.timestamp
      omega

theorem idInv_run (verify : String → Option String) :
    ∀ (es : List Event) (s : ServerState) (t : Nat),
      IdInv s t → timesMono t es = true →
      ∃ t2, IdInv (run verify s es) t2 := by
  intro es
  induction es with
  | nil => exact fun s t h _ => ⟨t, h⟩
  | cons e es ih =>
    intro s t h hm
    rw [timesMono, Bool.and_eq_true] at hm
    exact ih (step verify s e) (stepBound t e)
      (idInv_step verify s e t h (timeOk_of_timeOkB hm.1)) hm.2

theorem idInv_initState : IdInv initState 0 := by
  intro u
  exact ⟨fun it hit => absurd hit (by simp [histOf_initState]), List.Pairwise.nil⟩

theorem idTsOk_ids_distinct {T : Nat} {h : List ClipboardItem}
    (hok : idTsOk T h) : h.Pairwise (fun a b => a.id ≠ b.id) := by
  apply List.Pairwise.imp_of_mem ?_ hok.2
  intro a b ha hb hts hids
  apply hts
  apply natRepr_injective
  rw [← (hok.1 a ha).1, ← (hok.1 b hb).1]
  exact hids

/-- C6 amended: when the `clipboard_update` times along the trace are
strictly increasing (no two updates in the same `Date.now()` millisecond),
ids within the history of each user are pairwise distinct, and `delete_item`
with the id of a present entry removes exactly one entry. -/
theorem history_ids_unique (verify : String → Option String) (es : List Event)
    (u : String) (hmono : timesMono 0 es = true) :
    (histOf (run verify initState es) u).Pairwise (fun a b => a.id ≠ b.id) ∧
    (∀ sid, (run verify initState es).socketUserId sid = some u →
      ∀ e ∈ histOf (run verify initState es) u,
        (histOf (handleDeleteItem (run verify initState es) sid e.id).1 u).length + 1 =
          (histOf (run verify initState es) u).length) := by
  obtain ⟨t2, hinv⟩ := idInv_run verify es initState 0 idInv_initState hmono
  have hpw := idTsOk_ids_distinct (hinv u)
  refine ⟨hpw, ?_⟩
  intro sid hsid e he
  have hlen := length_filter_not_of_unique (fun x => x.id == e.id)
    (fun a b => a.id ≠ b.id)
    (fun a b ha hb hne => hne (by
      rw [beq_iff_eq] at ha hb
      rw [ha, hb]))
    (histOf (run verify initState es) u) hpw e he (by rw [beq_iff_eq])
  simp only [handleDeleteItem, hsid, histOf, mapSet, if_pos rfl,
    Option.getD_some, if_true]
  simpa [bne] using hlen

theorem handleClipboardUpdate_registry (s : ServerState) (sid : String)
    (data : UpdateData) (now : Nat) :
    (handleClipboardUpdate s sid data now).1.userSockets = s.userSockets ∧
    (handleClipboardUpdate s sid data now).1.socketUserId = s.socketUserId := by
  unfold handleClipboardUpdate
  split <;> exact ⟨rfl, rfl⟩

theorem handleClearHistory_registry (s : ServerState) (sid : String) :
    (handleClearHistory s sid).1.userSockets = s.userSockets ∧
    (handleClearHistory s sid).1.socketUserId = s.socketUserId := by
  unfold handleClearHistory
  split <;> exact ⟨rfl, rfl⟩

theorem handleDeleteItem_registry (s : ServerState) (sid itemId : String) :
    (handleDeleteItem s sid itemId).1.userSockets = s.userSockets ∧
    (handleDeleteItem s sid itemId).1.socketUserId = s.socketUserId := by
  unfold handleDeleteItem
  split <;> exact ⟨rfl, rfl⟩

theorem killSocket_userSockets (s : ServerState) (sid : String) :
    (killSocket s sid).userSockets = s.userSockets := rfl

theorem killSocket_socketUserId (s : ServerState) (sid : String) :
    (killSocket s sid).socketUserId = mapDel s.socketUserId sid := rfl

theorem regInv_killSocket_handleDisconnect (s : ServerState) (sid : String)
    (hinv : RegInv s) : RegInv (killSocket (handleDisconnect s sid) sid) := by
  intro u x hx
  rw [killSocket_userSockets] at hx
  rw [killSocket_socketUserId]
  cases hsu : s.socketUserId sid with
  | none =>
    have hd : handleDisconnect s sid = s := by
      simp only [handleDisconnect, hsu]
    rw [hd] at hx ⊢
    have hx0 := hinv u x hx
    have hxs : x ≠ sid := by
      intro hxe
      rw [hxe, hsu] at hx0
      exact Option.noConfusion hx0
    simpa [mapDel, hxs] using hx0
  | some u0 =>
    cases hus : s.userSockets u0 with
    | none =>
      have hd : handleDisconnect s sid = s := by
        simp only [handleDisconnect, hsu, hus]
      rw [hd] at hx ⊢
      have hx0 := hinv u x hx
      have hxs : x ≠ sid := by
        intro hxe
        rw [hxe, hsu] at hx0
        have huq : u = u0 := by simpa using hx0.symm
        rw [huq, hus] at hx
        simp at hx
      simpa [mapDel, hxs] using hx0
    | some sockets =>
      have hd : handleDisconnect s sid =
          (if (sockets.filter (fun y => y != sid)).length = 0 then
            { s with userSockets := mapDel s.userSockets u0 }
          else
            { s with userSockets :=
                mapSet s.userSockets u0 (sockets.filter (fun y => y != sid)) }) := by
        simp only [handleDisconnect, hsu, hus]
      rw [hd] at hx ⊢
      by_cases hlen : (sockets.filter (fun y => y != sid)).length = 0
      · rw [if_pos hlen] at hx ⊢
        simp only [mapDel] at hx ⊢
        by_cases huu : u = u0
        · rw [if_pos huu] at hx; simp at hx
        · rw [if_neg huu] at hx
          have hx0 := hinv u x hx
          have hxs : x ≠ sid := by
            intro hxe
            rw [hxe, hsu] at hx0
            exact huu (by simpa using hx0.symm)
          simpa [hxs] using hx0
      · rw [if_neg hlen] at hx ⊢
        simp only [mapDel, mapSet] at hx ⊢
        by_cases huu : u = u0
        · rw [if_pos huu] at hx
          simp only [Option.getD_some] at hx
          have hmem := List.mem_filter.mp hx
          have hxs : x ≠ sid := by simpa using hmem.2
          have hx0 : s.socketUserId x = some u0 := by
            apply hinv u0 x
            rw [hus]
            exact hmem.1
          rw [huu]
          simpa [hxs] using hx0
        · rw [if_neg huu] at hx
          have hx0 := hinv u x hx
          have hxs : x ≠ sid := by
            intro hxe
            rw [hxe, hsu] at hx0
            exact huu (by simpa using hx0.symm)
          simpa [hxs] using hx0

theorem regInv_step (verify : String → Option String) (s : ServerState)
    (e : Event) (hinv : RegInv s) (hok : authOkB verify s e = true) :
    RegInv (step verify s e) := by
  cases e with
  | connect sid => exact hinv
  | authenticate sid token =>
    cases hv : verify token with
    | none =>
      intro u x hx
      have : step verify s (Event.authenticate sid token) =
          killSocket (handleDisconnect s sid) sid := by
        simp [step, stepE, hv]
      rw [this] at hx ⊢
      exact regInv_killSocket_handleDisconnect s sid hinv u x hx
    | some userId =>
      rw [authOkB, hv, Bool.or_eq_true, beq_iff_eq, beq_iff_eq] at hok
      intro u x hx
      have hstep : step verify s (Event.authenticate sid token) =
          (handleAuthSuccess s sid userId).1 := by
        simp [step, stepE, hv]
      rw [hstep] at hx ⊢
      simp only [handleAuthSuccess, mapSet] at hx ⊢
      by_cases huu : u = userId
      · rw [if_pos huu] at hx
        simp only [Option.getD_some] at hx
        unfold setAdd at hx
        have hx2 : x = sid ∨ x ∈ (s.userSockets userId).getD [] := by
          split at hx
          · exact Or.inr hx
          · rcases List.mem_append.mp hx with h | h
            · exact Or.inr h
            · exact Or.inl (by simpa using h)
        rcases hx2 with rfl | hx2
        · rw [if_pos rfl, huu]
        · rw [huu]
          by_cases hxs : x = sid
          · rw [if_pos hxs]
          · rw [if_neg hxs]
            exact hinv userId x hx2
      · rw [if_neg huu] at hx
        have hx0 := hinv u x hx
        have hxs : x ≠ sid := by
          intro hxe
          rw [hxe] at hx0
          rcases hok with h | h
          · rw [h] at hx0; exact Option.noConfusion hx0
          · rw [h] at hx0
            exact huu (by simpa using hx0.symm)
        rw [if_neg hxs]
        exact hx0
  | clipboardUpdate sid data now =>
    intro u x hx
    have hreg := handleClipboardUpdate_registry s sid data now
    have hst : step verify s (Event.clipboardUpdate sid data now) =
        (handleClipboardUpdate s sid data now).1 := rfl
    rw [hst, hreg.1] at hx
    rw [hst, hreg.2]
    exact hinv u x hx
  | clearHistory sid =>
    intro u x hx
    have hreg := handleClearHistory_registry s sid
    have hst : step verify s (Event.clearHistory sid) =
        (handleClearHistory s sid).1 := rfl
    rw [hst, hreg.1] at hx
    rw [hst, hreg.2]
    exact hinv u x hx
  | deleteItem sid itemId =>
    intro u x hx
    have hreg := handleDeleteItem_registry s sid itemId
    have hst : step verify s (Event.deleteItem sid itemId) =
        (handleDeleteItem s sid itemId).1 := rfl
    rw [hst, hreg.1] at hx
    rw [hst, hreg.2]
    exact hinv u x hx
  | disconnect sid =>
    exact regInv_killSocket_handleDisconnect s sid hinv

theorem regInv_run (verify : String → Option String) :
    ∀ (es : List Event) (s : ServerState), RegInv s →
      consistentAuth verify s es = true → RegInv (run verify s es) := by
  intro es
  induction es with
  | nil => exact fun s h _ => h
  | cons e es ih =>
    intro s h hm
    rw [consistentAuth, Bool.and_eq_true] at hm
    exact ih (step verify s e) (regInv_step verify s e h hm.1) hm.2

theorem regInv_initState : RegInv initState := by
  intro u sid h
  simp [initState] at h

/-- C5 amended: under any sequence of connect, authenticate and disconnect
events in which no connection authenticates as a different user while
already authenticated, each connectionId appears in the
connection set of at most one user. -/
theorem session_registry_unique (verify : String → Option String)
    (es : List Event) (hcons : consistentAuth verify initState es = true)
    (u v sid : String)
    (hu : sid ∈ ((run verify initState es).userSockets u).getD [])
    (hv : sid ∈ ((run verify initState es).userSockets v).getD []) : u = v := by
  have hinv := regInv_run verify es initState regInv_initState hcons
  have h1 := hinv u sid hu
  have h2 := hinv v sid hv
  rw [h1] at h2
  exact Option.some.inj h2

/-- C5 counterexample: after authenticating as `U` and then re-authenticating
as `V`, connection `A` is in the sets of both users — the invariant as stated
fails on the code. -/
theorem session_registry_unique_cex :
    ¬ (∀ u v sid : String,
        sid ∈ ((run cexVerify initState c5Trace).userSockets u).getD [] →
        sid ∈ ((run cexVerify initState c5Trace).userSockets v).getD [] →
        u = v) := by
  intro hall
  have := hall "U" "V" "A" (by decide) (by decide)
  exact absurd this (by decide)

theorem session_registry_unique_witness :
    consistentAuth cexVerify initState c5WitnessTrace = true ∧ "U" = "U" :=
  ⟨by decide,
    session_registry_unique cexVerify c5WitnessTrace (by decide) "U" "U" "A"
      (by decide) (by decide)⟩

/-- C6 counterexample: both entries get id `"5"`, so ids are not pairwise
distinct, and `delete_item "5"` removes both entries (two, not exactly
one). -/
theorem history_ids_unique_cex :
    (histOf (run cexVerify initState c6Trace) "U").map ClipboardItem.id =
      ["5", "5"] ∧
    ¬ (histOf (run cexVerify initState c6Trace) "U").Pairwise
        (fun a b => a.id ≠ b.id) ∧
    histOf (run cexVerify initState (c6Trace ++ [Event.deleteItem "A" "5"]))
        "U" = [] :=
  ⟨by decide, by decide, by decide⟩

theorem history_ids_unique_witness :
    timesMono 0 c6WitnessTrace = true ∧
    ((histOf (run cexVerify initState c6WitnessTrace) "U").Pairwise
        (fun a b => a.id ≠ b.id) ∧
      (∀ sid, (run cexVerify initState c6WitnessTrace).socketUserId sid = some "U" →
        ∀ e ∈ histOf (run cexVerify initState c6WitnessTrace) "U",
          (histOf (handleDeleteItem (run cexVerify initState c6WitnessTrace) sid e.id).1
              "U").length + 1 =
            (histOf (run cexVerify initState c6WitnessTrace) "U").length)) :=
  ⟨by decide, history_ids_unique cexVerify c6WitnessTrace "U" (by decide)⟩

/-- C1: when authenticated connection `A` of user `U` sends
`clipboard_update`, every connection of `U` other than `A` receives a
`clipboard_sync` event with the new item, `A` receives no `clipboard_sync`
event, and every connection of `U` (including `A`) receives a `history`
event with the full updated history. -/
theorem clipboard_update_fanout (s : ServerState) (A U : String)
    (data : UpdateData) (now : Nat) (l : List String)
    (hauth : s.socketUserId A = some U) (hconn : s.userSockets U = some l) :
    (∀ c ∈ l, c ≠ A →
      Emission.mk c "clipboard_sync" (Payload.item (mkClipboardItem data now)) ∈
        (handleClipboardUpdate s A data now).2) ∧
    (∀ p : Payload,
      Emission.mk A "clipboard_sync" p ∉ (handleClipboardUpdate s A data now).2) ∧
    (∀ c ∈ l,
      Emission.mk c "history"
          (Payload.items (pushHistory (histOf s U) (mkClipboardItem data now))) ∈
        (handleClipboardUpdate s A data now).2) := by
  have hem : (handleClipboardUpdate s A data now).2 =
      (l.filter (fun c => some c != some A)).map
        (fun c => Emission.mk c "clipboard_sync"
          (Payload.item (mkClipboardItem data now))) ++
      (l.filter (fun c => some c != none)).map
        (fun c => Emission.mk c "history"
          (Payload.items (pushHistory (histOf s U) (mkClipboardItem data now)))) := by
    simp only [handleClipboardUpdate, hauth, broadcastToUserDevices, hconn, histOf]
  refine ⟨?_, ?_, ?_⟩
  · intro c hc hne
    rw [hem, List.mem_append]
    left
    rw [List.mem_map]
    refine ⟨c, ?_, rfl⟩
    rw [List.mem_filter]
    exact ⟨hc, by simp [hne]⟩
  · intro p hp
    rw [hem, List.mem_append] at hp
    rcases hp with hp | hp
    · rw [List.mem_map] at hp
      obtain ⟨c, hcf, hce⟩ := hp
      have hca : c = A := congrArg Emission.target hce
      have := (List.mem_filter.mp hcf).2
      rw [hca] at this
      simp at this
    · rw [List.mem_map] at hp
      obtain ⟨c, _, hce⟩ := hp
      have : "history" = "clipboard_sync" := congrArg Emission.event hce
      exact absurd this (by decide)
  · intro c hc
    rw [hem, List.mem_append]
    right
    rw [List.mem_map]
    refine ⟨c, ?_, rfl⟩
    rw [List.mem_filter]
    exact ⟨hc, by simp⟩

theorem pushHistory_length_of_mem (h : List ClipboardItem) (it : ClipboardItem)
    (hlen : h.length ≤ MAX_HISTORY) (hd : keyDistinct h)
    (e : ClipboardItem) (he : e ∈ h) (hkey : sameContent e it = true) :
    (pushHistory h it).length = h.length := by
  rw [pushHistory_eq_of_mem h it hlen hd e he hkey]
  have := length_filter_not_of_unique _ keyRel (keyRel_antisymm_matches it)
    h hd e he hkey
  simp only [List.length_cons]
  omega

/-- C4: pushing an item whose `(content, type)` matches an existing entry
removes the matching entry, puts the new item — with its fresh id
(`Date.now().toString()`), timestamp and origin-device metadata — at the
front, and leaves the total number of entries unchanged. -/
theorem push_duplicate_refresh (h : List ClipboardItem) (data : UpdateData)
    (now : Nat) (hlen : h.length ≤ MAX_HISTORY) (hd : keyDistinct h)
    (e : ClipboardItem) (he : e ∈ h)
    (hc : e.content = data.content) (ht : e.type = jsOrText data.type) :
    pushHistory h (mkClipboardItem data now) =
      mkClipboardItem data now ::
        h.filter (fun x => !sameContent x (mkClipboardItem data now)) ∧
    (pushHistory h (mkClipboardItem data now)).length = h.length := by
  have hkey : sameContent e (mkClipboardItem data now) = true := by
    rw [sameContent_true_iff]
    exact ⟨hc, ht⟩
  exact ⟨pushHistory_eq_of_mem h _ hlen hd e he hkey,
    pushHistory_length_of_mem h _ hlen hd e he hkey⟩

theorem push_duplicate_refresh_witness :
    ([⟨"1", "foo", "text", 1, "d1", "n1"⟩] : List ClipboardItem).length ≤ MAX_HISTORY ∧
    keyDistinct [⟨"1", "foo", "text", 1, "d1", "n1"⟩] ∧
    (pushHistory [⟨"1", "foo", "text", 1, "d1", "n1"⟩]
        (mkClipboardItem ⟨"foo", some "text", "d2", "n2"⟩ 7) =
      mkClipboardItem ⟨"foo", some "text", "d2", "n2"⟩ 7 ::
        List.filter
          (fun x => !sameContent x (mkClipboardItem ⟨"foo", some "text", "d2", "n2"⟩ 7))
          [⟨"1", "foo", "text", 1, "d1", "n1"⟩] ∧
      (pushHistory [⟨"1", "foo", "text", 1, "d1", "n1"⟩]
          (mkClipboardItem ⟨"foo", some "text", "d2", "n2"⟩ 7)).length =
        ([⟨"1", "foo", "text", 1, "d1", "n1"⟩] : List ClipboardItem).length) :=
  ⟨by decide, by simp [keyDistinct],
    push_duplicate_refresh [⟨"1", "foo", "text", 1, "d1", "n1"⟩]
      ⟨"foo", some "text", "d2", "n2"⟩ 7 (by decide)
      (by simp [keyDistinct])
      ⟨"1", "foo", "text", 1, "d1", "n1"⟩ (by decide) (by decide) (by decide)⟩

/-- C7: an unauthenticated connection sending `clipboard_update`,
`clear_history` or `delete_item` gets exactly one `error` event addressed
to itself, and the server state (histories and registry) is unchanged. -/
theorem unauthenticated_rejected (s : ServerState) (sid : String)
    (data : UpdateData) (now : Nat) (itemId : String)
    (h : s.socketUserId sid = none) :
    handleClipboardUpdate s sid data now =
      (s, [⟨sid, "error", Payload.msg "Not authenticated"⟩]) ∧
    handleClearHistory s sid =
      (s, [⟨sid, "error", Payload.msg "Not authenticated"⟩]) ∧
    handleDeleteItem s sid itemId =
      (s, [⟨sid, "error", Payload.msg "Not authenticated"⟩]) := by
  refine ⟨?_, ?_, ?_⟩
  · simp only [handleClipboardUpdate, h]
  · simp only [handleClearHistory, h]
  · simp only [handleDeleteItem, h]

theorem unauthenticated_rejected_witness :
    initState.socketUserId "A" = none ∧
    (handleClipboardUpdate initState "A" ⟨"x", none, "d", "dn"⟩ 0 =
      (initState, [⟨"A", "error", Payload.msg "Not authenticated"⟩]) ∧
    handleClearHistory initState "A" =
      (initState, [⟨"A", "error", Payload.msg "Not authenticated"⟩]) ∧
    handleDeleteItem initState "A" "1" =
      (initState, [⟨"A", "error", Payload.msg "Not authenticated"⟩])) :=
  ⟨rfl, unauthenticated_rejected initState "A" ⟨"x", none, "d", "dn"⟩ 0 "1" rfl⟩

/-- C8: an `authenticate` with a token that fails verification makes the
hub emit `auth_error` to that connection alone and close it; the registry
and the histories are untouched, and no `history` snapshot is sent. -/
theorem auth_failure_closes (verify : String → Option String) (s : ServerState)
    (sid token : String) (hv : verify token = none)
    (hfresh : s.socketUserId sid = none) :
    stepE verify s (.authenticate sid token) =
      (killSocket s sid, [⟨sid, "auth_error", Payload.msg "Invalid token"⟩], true) ∧
    (killSocket s sid).userSockets = s.userSockets ∧
    (killSocket s sid).clipboardHistory = s.clipboardHistory := by
  have hd : handleDisconnect s sid = s := by
    simp only [handleDisconnect, hfresh]
  refine ⟨?_, rfl, rfl⟩
  simp only [stepE, hv, hd]

theorem auth_failure_closes_witness :
    (fun _ : String => (none : Option String)) "t" = none ∧
    initState.socketUserId "A" = none ∧
    (stepE (fun _ => none) initState (.authenticate "A" "t") =
      (killSocket initState "A",
        [⟨"A", "auth_error", Payload.msg "Invalid token"⟩], true) ∧
    (killSocket initState "A").userSockets = initState.userSockets ∧
    (killSocket initState "A").clipboardHistory = initState.clipboardHistory) :=
  ⟨rfl, rfl, auth_failure_closes (fun _ => none) initState "A" "t" rfl rfl⟩

/-- C9: a disconnect of registered connection `A` of user `U` removes `A`
from the set of `U` (removing the user entry entirely when the set becomes
empty), so a subsequent broadcast for `U` reaches exactly the remaining
connections; a disconnect of a never-registered connection leaves the
registry unchanged. -/
theorem disconnect_cleanup (s : ServerState) (A U : String) (l : List String)
    (ev : String) (d : Payload) :
    (s.socketUserId A = some U → s.userSockets U = some l →
      ((handleDisconnect s A).userSockets U =
        (if (l.filter (fun y => y != A)).length = 0 then none
         else some (l.filter (fun y => y != A)))) ∧
      ((broadcastToUserDevices (handleDisconnect s A).userSockets U ev d
          none).map Emission.target = l.filter (fun y => y != A))) ∧
    (s.socketUserId A = none →
      (killSocket (handleDisconnect s A) A).userSockets = s.userSockets) := by
  constructor
  · intro hsu hus
    have hd : handleDisconnect s A =
        (if (l.filter (fun y => y != A)).length = 0 then
          { s with userSockets := mapDel s.userSockets U }
        else
          { s with userSockets := mapSet s.userSockets U (l.filter (fun y => y != A)) }) := by
      simp only [handleDisconnect, hsu, hus]
    rw [hd]
    by_cases hlen : (l.filter (fun y => y != A)).length = 0
    · rw [if_pos hlen, if_pos hlen]
      have hnil : l.filter (fun y => y != A) = [] := List.length_eq_zero.mp hlen
      constructor
      · simp [mapDel]
      · rw [hnil]
        simp [broadcastToUserDevices, mapDel]
    · rw [if_neg hlen, if_neg hlen]
      constructor
      · simp [mapSet]
      · have hmm : mapSet s.userSockets U (l.filter (fun y => y != A)) U =
            some (l.filter (fun y => y != A)) := by
          simp [mapSet]
        simp only [broadcastToUserDevices, hmm]
        have hin : (l.filter (fun y => y != A)).filter
            (fun socketId => some socketId != none) =
            l.filter (fun y => y != A) :=
          List.filter_eq_self.mpr (fun a _ => by simp)
        rw [hin, List.map_map]
        have : (Emission.target ∘ fun socketId => Emission.mk socketId ev d) =
            fun socketId => socketId := rfl
        rw [this, List.map_id']
  · intro hsu
    have hd : handleDisconnect s A = s := by
      simp only [handleDisconnect, hsu]
    rw [hd]
    rfl

/-- C10: a `clipboard_update` whose `type` field is absent or empty stores
the item with contentType `"text"`, and the default is applied before the
duplicate scan: the update deduplicates against an existing entry with
equal content and type `"text"`, leaving the entry count unchanged. -/
theorem default_type_dedup (h : List ClipboardItem)
    (content deviceId deviceName : String) (t : Option String)
    (htf : t = none ∨ t = some "") (now : Nat)
    (hlen : h.length ≤ MAX_HISTORY) (hd : keyDistinct h)
    (e : ClipboardItem) (he : e ∈ h) (hc : e.content = content)
    (hty : e.type = "text") :
    (mkClipboardItem ⟨content, t, deviceId, deviceName⟩ now).type = "text" ∧
    pushHistory h (mkClipboardItem ⟨content, t, deviceId, deviceName⟩ now) =
      mkClipboardItem ⟨content, t, deviceId, deviceName⟩ now ::
        h.filter (fun x =>
          !sameContent x (mkClipboardItem ⟨content, t, deviceId, deviceName⟩ now)) ∧
    (pushHistory h (mkClipboardItem ⟨content, t, deviceId, deviceName⟩ now)).length =
      h.length := by
  have htext : jsOrText t = "text" := by
    rcases htf with rfl | rfl
    · rfl
    · rfl
  have hkey : sameContent e
      (mkClipboardItem ⟨content, t, deviceId, deviceName⟩ now) = true := by
    rw [sameContent_true_iff]
    refine ⟨hc, ?_⟩
    show e.type = jsOrText t
    rw [hty, htext]
  exact ⟨htext, pushHistory_eq_of_mem h _ hlen hd e he hkey,
    pushHistory_length_of_mem h _ hlen hd e he hkey⟩

theorem default_type_dedup_witness :
    ((none : Option String) = none ∨ (none : Option String) = some "") ∧
    ((mkClipboardItem ⟨"foo", none, "d2", "n2"⟩ 9).type = "text" ∧
    pushHistory [⟨"1", "foo", "text", 1, "d1", "n1"⟩]
        (mkClipboardItem ⟨"foo", none, "d2", "n2"⟩ 9) =
      mkClipboardItem ⟨"foo", none, "d2", "n2"⟩ 9 ::
        List.filter
          (fun x => !sameContent x (mkClipboardItem ⟨"foo", none, "d2", "n2"⟩ 9))
          [⟨"1", "foo", "text", 1, "d1", "n1"⟩] ∧
    (pushHistory [⟨"1", "foo", "text", 1, "d1", "n1"⟩]
        (mkClipboardItem ⟨"foo", none, "d2", "n2"⟩ 9)).length =
      ([⟨"1", "foo", "text", 1, "d1", "n1"⟩] : List ClipboardItem).length) :=
  ⟨Or.inl rfl,
    default_type_dedup [⟨"1", "foo", "text", 1, "d1", "n1"⟩] "foo" "d2" "n2" none
      (Or.inl rfl) 9 (by decide) (by simp [keyDistinct])
      ⟨"1", "foo", "text", 1, "d1", "n1"⟩ (by decide) rfl rfl⟩

theorem clipboard_update_fanout_witness :
    fanState.socketUserId "A" = some "U" ∧
    fanState.userSockets "U" = some ["A", "B"] ∧
    ((∀ c ∈ (["A", "B"] : List String), c ≠ "A" →
      Emission.mk c "clipboard_sync"
          (Payload.item (mkClipboardItem ⟨"x", none, "d", "dn"⟩ 7)) ∈
        (handleClipboardUpdate fanState "A" ⟨"x", none, "d", "dn"⟩ 7).2) ∧
    (∀ p : Payload,
      Emission.mk "A" "clipboard_sync" p ∉
        (handleClipboardUpdate fanState "A" ⟨"x", none, "d", "dn"⟩ 7).2) ∧
    (∀ c ∈ (["A", "B"] : List String),
      Emission.mk c "history"
          (Payload.items (pushHistory (histOf fanState "U")
            (mkClipboardItem ⟨"x", none, "d", "dn"⟩ 7))) ∈
        (handleClipboardUpdate fanState "A" ⟨"x", none, "d", "dn"⟩ 7).2)) :=
  ⟨by decide, by decide,
    clipboard_update_fanout fanState "A" "U" ⟨"x", none, "d", "dn"⟩ 7 ["A", "B"]
      (by decide) (by decide)⟩

theorem disconnect_cleanup_witness :
    fanState.socketUserId "A" = some "U" ∧
    fanState.userSockets "U" = some ["A", "B"] ∧
    (((handleDisconnect fanState "A").userSockets "U" =
        (if ((["A", "B"] : List String).filter (fun y => y != "A")).length = 0
         then none
         else some ((["A", "B"] : List String).filter (fun y => y != "A")))) ∧
    ((broadcastToUserDevices (handleDisconnect fanState "A").userSockets "U"
        "history" (Payload.items []) none).map Emission.target =
      (["A", "B"] : List String).filter (fun y => y != "A"))) :=
  ⟨by decide, by decide,
    (disconnect_cleanup fanState "A" "U" ["A", "B"] "history"
      (Payload.items [])).1 (by decide) (by decide)⟩

end Syncboard
